import Mathlib

set_option linter.unusedVariables false

/-!
Verification development for the r3 interpreter runtime.

Shallow embeddings of routines from the C sources:
  * %c-bind.c      - Merge_Patches_May_Reuse, Get_Word_Container
  * %c-hijack.c    - REBNATIVE(hijack), Hijacker_Dispatcher
  * %c-lambda.c    - Lambda_Dispatcher, REBNATIVE(lambda)
  * %c-typechecker.c - Typecheck_Value
  * %c-path.c      - Do_Path_Throws_Core, Next_Path_Throws
  * %p-file.c / %file-posix.c - File_Actor READ, Read_File, Write_File
  * %make-boot.r   - symbol-strings emission
-/

namespace Bind

/-- A context keylist entry: the key symbol together with the
CELL_FLAG_BIND_NOTE_REUSE flag found on the corresponding variable slot
(the flag makes `Get_Word_Container` treat a key match as a miss). -/
structure Ctx where
  id : Nat
  keys : List (Nat × Bool)
deriving Repr, DecidableEq

/-- One node of a virtual-binding specifier chain, as walked by the
do-while loop in `Get_Word_Container` (%c-bind.c).  The four variants are
the cases that loop distinguishes:
  * `letP`: an `IS_LET` patch, holding one symbol and one variable cell
    (identified here by `letId`).
  * `useM`: an `IS_USE` patch whose single cell is a module
    (`Is_Module(Array_Single(specifier))`).
  * `useL`: an `IS_USE` patch whose cell binding is not a varlist,
    i.e. a "patch-formed LET overload" pointing at a LET patch.
  * `useC`: an `IS_USE` patch whose cell binding is a context varlist;
    `setWordsOnly` models `Is_Set_Word(Array_Single(specifier))`. -/
inductive Patch where
  | letP (sym : Nat) (letId : Nat)
  | useM (modId : Nat)
  | useL (sym : Nat) (letId : Nat)
  | useC (ctx : Ctx) (setWordsOnly : Bool)
deriving Repr, DecidableEq

/-- Identity of the variable cell `Get_Word_Container` resolves to:
a LET patch's single cell, a module variable (the `MOD_VAR` cell of a
symbol inside a module), or an indexed slot of a context varlist. -/
inductive Var where
  | letVar (letId : Nat)
  | modVar (modId : Nat) (sym : Nat)
  | ctxVar (ctxId : Nat) (index : Nat)
deriving Repr, DecidableEq

/-- The key scan inside `Get_Word_Container` for a context-backed USE
patch: walk the keylist from index 1; on the first key whose symbol
matches, a variable carrying BIND_NOTE_REUSE makes the whole patch a miss
(the C `break`), otherwise the index is returned. -/
def ctxFind (sym : Nat) : List (Nat × Bool) → Nat → Option Nat
  | [], _ => none
  | (k, reuse) :: rest, i =>
    if k == sym then (if reuse then none else some i)
    else ctxFind sym rest (i + 1)

/-- The result of testing a single specifier node against a symbol, as in
one iteration of the `Get_Word_Container` loop.  `modHas m s` abstracts
`MOD_VAR(mod, symbol, true) != nullptr`; `isSetWord` is whether the word
being looked up has `REB_SET_WORD` heart. -/
def patchHit (modHas : Nat → Nat → Bool) (sym : Nat) (isSetWord : Bool) :
    Patch → Option Var
  | .letP s i => if s == sym then some (.letVar i) else none
  | .useM m => if modHas m sym then some (.modVar m sym) else none
  | .useL s i => if s == sym then some (.letVar i) else none
  | .useC ctx setw =>
    if setw && !isSetWord then none
    else
      match ctxFind sym ctx.keys 1 with
      | some i => some (.ctxVar ctx.id i)
      | none => none

/-- The virtual-binding portion of `Get_Word_Container`: walk the chain
head to tail, returning the variable of the first node that hits; `none`
means the loop bottomed out (null or frame varlist) with no virtual hit
and lookup proceeds with the word's stored binding. -/
def resolvePatches (modHas : Nat → Nat → Bool) (sym : Nat) (isSetWord : Bool) :
    List Patch → Option Var
  | [] => none
  | p :: rest =>
    match patchHit modHas sym isSetWord p with
    | some v => some v
    | none => resolvePatches modHas sym isSetWord rest

/-- The rebuild step of `Merge_Patches_May_Reuse`: when a new patch must
be made, a LET parent cannot be copied (the patch is the variable), so a
USE patch is made whose binding points at the LET (`kind = REB_WORD`);
for USE parents the new patch reuses `BINDING(Array_Single(parent))` and
`VAL_TYPE(Array_Single(parent))`, reproducing the same node contents. -/
def patchToUse : Patch → Patch
  | .letP s i => .useL s i
  | p => p

/-- Embedding of `Merge_Patches_May_Reuse` (%c-bind.c): returns a chain
with the parent's nodes first and the child chain spliced at the end.
The C compares `NextVirtual(parent) == child` by pointer; structural
equality of the remainder models that reuse test.  The nil case is
unreachable (the C asserts the parent is a LET or USE patch). -/
def mergePatches : List Patch → List Patch → List Patch
  | [], child => child
  | parent :: rest, child =>
    if rest == child then parent :: rest
    else
      patchToUse parent ::
        (if rest.isEmpty then child else mergePatches rest child)

theorem patchHit_patchToUse (modHas : Nat → Nat → Bool) (sym : Nat)
    (isSetWord : Bool) (p : Patch) :
    patchHit modHas sym isSetWord (patchToUse p) =
      patchHit modHas sym isSetWord p := by
  cases p <;> rfl

/-- C1: for specifier chains merged by `Merge_Patches_May_Reuse` with X
as the parent (outer, searched first) and Y as the child, any symbol that
resolves to a variable through chain X alone also resolves through
merge(X, Y), and to the same variable. -/
theorem merge_preserves_resolution (modHas : Nat → Nat → Bool)
    (sym : Nat) (isSetWord : Bool) (X Y : List Patch) (v : Var)
    (hX : X ≠ []) (hY : Y ≠ [])
    (h : resolvePatches modHas sym isSetWord X = some v) :
    resolvePatches modHas sym isSetWord (mergePatches X Y) = some v := by
  induction X with
  | nil => exact absurd rfl hX
  | cons p rest ih =>
    by_cases hreuse : rest == Y
    · simpa [mergePatches, hreuse] using h
    · simp only [mergePatches, hreuse, if_false]
      simp only [resolvePatches, patchHit_patchToUse] at h ⊢
      cases hhit : patchHit modHas sym isSetWord p with
      | some v2 =>
        simp only [hhit] at h ⊢
        exact h
      | none =>
        simp only [hhit] at h ⊢
        cases rest with
        | nil => simp [resolvePatches] at h
        | cons q qs =>
          simp only [List.isEmpty_cons, Bool.false_eq_true, if_false]
          exact ih (by simp) h

/-- Witness for C1 at concrete inputs: a chain holding a LET patch for
symbol 5 resolves symbol 5 before and after merging with another chain. -/
theorem merge_preserves_resolution_witness :
    ([Patch.letP 5 9] : List Patch) ≠ []
    ∧ ([Patch.letP 7 3] : List Patch) ≠ []
    ∧ resolvePatches (fun _ _ => false) 5 false [Patch.letP 5 9] =
        some (Var.letVar 9)
    ∧ resolvePatches (fun _ _ => false) 5 false
        (mergePatches [Patch.letP 5 9] [Patch.letP 7 3]) =
        some (Var.letVar 9) := by
  refine ⟨by simp, by simp, by decide, ?_⟩
  exact merge_preserves_resolution (fun _ _ => false) 5 false
    [Patch.letP 5 9] [Patch.letP 7 3] (Var.letVar 9)
    (by simp) (by simp) (by decide)

end Bind

namespace Seas

/-- Attachment mode passed to `Get_Word_Container`; the code compares the
mode against ATTACH_WRITE and ATTACH_READ only. -/
inductive AttachMode where
  | read
  | write
  | readIfAttached
deriving Repr, DecidableEq

/-- Outcome of the module branch of `Get_Word_Container`: a patch for the
symbol found in the hitch chain (identified by the context it belongs
to), a freshly attached variable slot, or unbound. -/
inductive ModResult where
  | found (ctxId : Nat)
  | attached
  | unbound
deriving Repr, DecidableEq

/-- Stored binding of the word cell after the lookup: either still the
module varlist the word was bound to, or a cached patch for the word's
symbol in the given context. -/
inductive WordBinding where
  | toModule (m : Nat)
  | toPatch (ctxId : Nat)
deriving Repr, DecidableEq

/-- Embedding of the `CTX_TYPE(binding) == REB_MODULE` branch of
`Get_Word_Container` (%c-bind.c) for a word whose stored binding is the
module `m`.  `hitches` lists the contexts holding a patch for the word's
symbol (the symbol's hitch chain, binding temps already skipped).  The
returned pair is the lookup result and the word cell's stored binding
afterwards: the code runs `INIT_VAL_WORD_BINDING` only when a patch whose
`PatchContext` is `m` itself is found; an attachment appends a variable
without touching the word, and the Lib inheritance scan deliberately does
not cache. -/
def getWordInModule (m lib sys : Nat) (mode : AttachMode)
    (hitches : List Nat) : ModResult × WordBinding :=
  match hitches.find? (fun c => c == m) with
  | some c => (.found c, .toPatch c)
  | none =>
    if mode == .write && m != lib && m != sys then
      (.attached, .toModule m)
    else if mode != .read || m == lib then
      (.unbound, .toModule m)
    else
      match hitches.find? (fun c => c == lib) with
      | some c => (.found c, .toModule m)
      | none => (.unbound, .toModule m)

theorem find_self_mem (m : Nat) (hs : List Nat) (hmem : m ∈ hs) :
    hs.find? (fun c => c == m) = some m := by
  induction hs with
  | nil => cases hmem
  | cons a rest ih =>
    by_cases ha : a = m
    · subst ha
      simp [List.find?]
    · have hmem2 : m ∈ rest := by
        cases hmem with
        | head => exact absurd rfl ha
        | tail _ h => exact h
      have hba : (a == m) = false := by simp [ha]
      simp [List.find?, hba, ih hmem2]

theorem find_eq_of_some (q : Nat) (hs : List Nat) (c : Nat)
    (h : hs.find? (fun x => x == q) = some c) : c = q := by
  have := List.find?_some h
  simpa using this

/-- C2: the module branch of `Get_Word_Container` writes a binding back
into the word cell only when the resolved patch directly names the owning
module; every lookup satisfied by inheritance from the Lib module leaves
the word's stored binding unchanged, so once an override patch for the
module exists in the hitch chain, a later lookup of the same word finds
the module's own variable. -/
theorem get_word_container_cache_policy (m lib sys : Nat)
    (mode : AttachMode) (hitches : List Nat) :
    (∀ c, (getWordInModule m lib sys mode hitches).2 = .toPatch c →
        c = m ∧ (getWordInModule m lib sys mode hitches).1 = .found m)
    ∧ (∀ c, (getWordInModule m lib sys mode hitches).1 = .found c →
        c ≠ m →
        c = lib
        ∧ (getWordInModule m lib sys mode hitches).2 = .toModule m
        ∧ ∀ hs2, m ∈ hs2 →
            getWordInModule m lib sys mode hs2 = (.found m, .toPatch m)) := by
  have hvis : ∀ hs2, m ∈ hs2 →
      getWordInModule m lib sys mode hs2 = (.found m, .toPatch m) := by
    intro hs2 hmem
    unfold getWordInModule
    rw [find_self_mem m hs2 hmem]
  cases hfind : hitches.find? (fun c => c == m) with
  | some c2 =>
    have hc2 : c2 = m := find_eq_of_some m hitches c2 hfind
    have heq : getWordInModule m lib sys mode hitches =
        (.found m, .toPatch m) := by
      unfold getWordInModule
      rw [hfind, hc2]
    rw [heq]
    constructor
    · intro c hc
      simp at hc
      exact ⟨hc.symm, rfl⟩
    · intro c hc hne
      simp at hc
      exact absurd hc.symm hne
  | none =>
    by_cases h1 : (mode == .write && m != lib && m != sys) = true
    · have heq : getWordInModule m lib sys mode hitches =
          (.attached, .toModule m) := by
        unfold getWordInModule
        rw [hfind]
        simp [h1]
      rw [heq]
      constructor
      · intro c hc
        simp at hc
      · intro c hc
        simp at hc
    · by_cases h2 : (mode != .read || m == lib) = true
      · have heq : getWordInModule m lib sys mode hitches =
            (.unbound, .toModule m) := by
          unfold getWordInModule
          rw [hfind]
          simp [h1, h2]
        rw [heq]
        constructor
        · intro c hc
          simp at hc
        · intro c hc
          simp at hc
      · cases hfind2 : hitches.find? (fun c => c == lib) with
        | some c3 =>
          have hc3 : c3 = lib := find_eq_of_some lib hitches c3 hfind2
          have heq : getWordInModule m lib sys mode hitches =
              (.found c3, .toModule m) := by
            unfold getWordInModule
            rw [hfind]
            simp [h1, h2]
            rw [hfind2]
          rw [heq]
          constructor
          · intro c hc
            simp at hc
          · intro c hc hne
            simp at hc
            exact ⟨by rw [← hc, hc3], rfl, hvis⟩
        | none =>
          have heq : getWordInModule m lib sys mode hitches =
              (.unbound, .toModule m) := by
            unfold getWordInModule
            rw [hfind]
            simp [h1, h2]
            rw [hfind2]
          rw [heq]
          constructor
          · intro c hc
            simp at hc
          · intro c hc
            simp at hc

/-- Witness for C2 at concrete inputs: module 1 with Lib module 2, a
hitch chain holding only the Lib patch; the read lookup is satisfied from
Lib, leaves the word bound to module 1, and after an override patch for
module 1 appears the lookup returns the module's own variable. -/
theorem get_word_container_cache_policy_witness :
    (getWordInModule 1 2 3 .read [2]).1 = ModResult.found 2
    ∧ (getWordInModule 1 2 3 .read [2]).2 = WordBinding.toModule 1
    ∧ getWordInModule 1 2 3 .read [1, 2] =
        (ModResult.found 1, WordBinding.toPatch 1) := by
  have h := (get_word_container_cache_policy 1 2 3 .read [2]).2 2
    (by decide) (by decide)
  exact ⟨by decide, h.2.1, h.2.2 [1, 2] (by decide)⟩

end Seas

namespace Hijack

/-- The dispatcher stored through `LINK_DISPATCHER` on an action's
identity array: either an ordinary dispatcher together with the behavior
(details/body) it runs, or the `Hijacker_Dispatcher` shim. -/
inductive Dispatch where
  | native (code : Nat)
  | shim
deriving Repr, DecidableEq

/-- One action identity: its dispatcher and the action referenced by the
archetype cell in slot [0] of the identity array
(`VAL_ACTION(ACT_ARCHETYPE(act))`).  A healthy, never-hijacked action's
archetype references itself. -/
structure Act where
  disp : Dispatch
  arch : Nat
deriving Repr, DecidableEq

/-- Heap of action identities, indexed by identity number. -/
def ActHeap : Type := Nat → Act

/-- Embedding of `REBNATIVE(hijack)` (%c-hijack.c): a self-hijack is a
no-op; otherwise the victim's archetype cell receives the hijacker's
archetype (`Copy_Cell(ACT_ARCHETYPE(victim), ACT_ARCHETYPE(hijacker))`)
and the victim identity's dispatcher becomes the hijacker's dispatcher
when `Action_Is_Base_Of(victim, hijacker)` holds (compatible frames), or
the `Hijacker_Dispatcher` shim otherwise.  `isBase` abstracts
`Action_Is_Base_Of`, which reads only the paramlist derivation that
hijacking never reshapes. -/
def hijack (isBase : Nat → Nat → Bool) (s : ActHeap)
    (victim hijacker : Nat) : ActHeap :=
  if victim == hijacker then s
  else
    Function.update s victim
      ⟨if isBase victim hijacker then (s hijacker).disp else .shim,
        (s hijacker).arch⟩

/-- Modelled from the spec: COPY of an ACTION! is not under src/ (only
its callers are); per the specification's data model an action copy is a
new identity array with the same dispatcher and details whose [0]
archetype cell holds the self-reference of the new action. -/
def copyAct (s : ActHeap) (src newId : Nat) : ActHeap :=
  Function.update s newId ⟨(s src).disp, newId⟩

/-- Behavior of invoking an action identity, following
`Hijacker_Dispatcher` (%c-hijack.c): a native dispatcher runs its own
code; the shim fetches the action referenced by the archetype and runs it
(directly when keylists are derived, else through a rebuilt frame — in
both cases the archetype action's behavior).  Fuel bounds the shim
chain. -/
def behavior (s : ActHeap) : Nat → Nat → Option Nat
  | 0, _ => none
  | fuel + 1, i =>
    match (s i).disp with
    | .native code => some code
    | .shim => behavior s fuel (s i).arch

/-- C3: taking a copy C of action V before `hijack(V, H)`, then running
`hijack(V, H)` followed by `hijack(V, C)`, restores V's original behavior
for every pre-hijack reference (they all invoke identity V), while C
itself exhibits V's pre-hijack behavior at every intermediate state. -/
theorem hijack_roundtrip_restores (isBase : Nat → Nat → Bool)
    (s0 : ActHeap) (v h c cv : Nat)
    (hv : s0 v = ⟨.native cv, v⟩)
    (hcv : c ≠ v) (hch : c ≠ h) :
    (∀ fuel, 2 ≤ fuel →
      behavior (hijack isBase (hijack isBase (copyAct s0 v c) v h) v c)
          fuel v = some cv
      ∧ behavior s0 fuel v = some cv)
    ∧ (∀ fuel, 1 ≤ fuel →
      behavior (copyAct s0 v c) fuel c = some cv
      ∧ behavior (hijack isBase (copyAct s0 v c) v h) fuel c = some cv
      ∧ behavior (hijack isBase (hijack isBase (copyAct s0 v c) v h) v c)
          fuel c = some cv) := by
  have hvc2 : v ≠ c := fun hh => hcv hh.symm
  have hs1c : (copyAct s0 v c) c = ⟨.native cv, c⟩ := by
    unfold copyAct
    rw [Function.update_same, hv]
  set s1 := copyAct s0 v c with hs1def
  have hs2c : (hijack isBase s1 v h) c = ⟨.native cv, c⟩ := by
    unfold hijack
    by_cases hvh : v = h
    · subst hvh
      simp [hs1c]
    · rw [if_neg (by simp [hvh])]
      rw [Function.update_noteq hcv]
      exact hs1c
  set s2 := hijack isBase s1 v h with hs2def
  have hs3c : (hijack isBase s2 v c) c = ⟨.native cv, c⟩ := by
    unfold hijack
    rw [if_neg (by simp [hvc2])]
    rw [Function.update_noteq hcv]
    exact hs2c
  have hs3v :
      (hijack isBase s2 v c) v =
        ⟨if isBase v c then .native cv else .shim, c⟩ := by
    unfold hijack
    rw [if_neg (by simp [hvc2])]
    rw [Function.update_same, hs2c]
  set s3 := hijack isBase s2 v c with hs3def
  have bsucc : ∀ (s : ActHeap) (fuel i : Nat),
      behavior s (fuel + 1) i =
        match (s i).disp with
        | Dispatch.native code => some code
        | Dispatch.shim => behavior s fuel (s i).arch := by
    intro s fuel i
    rfl
  constructor
  · intro fuel hfuel
    obtain ⟨k, rfl⟩ : ∃ k, fuel = (k + 1) + 1 := ⟨fuel - 2, by omega⟩
    constructor
    · rw [bsucc, hs3v]
      by_cases hb : isBase v c = true
      · simp [hb]
      · simp only [hb, Bool.false_eq_true, if_false]
        simp only [bsucc, hs3c]
    · rw [bsucc, hv]
  · intro fuel hfuel
    obtain ⟨k, rfl⟩ : ∃ k, fuel = k + 1 := ⟨fuel - 1, by omega⟩
    refine ⟨?_, ?_, ?_⟩
    · rw [bsucc, hs1c]
    · rw [bsucc, hs2c]
    · rw [bsucc, hs3c]

/-- Witness for C3 at concrete inputs: a one-action heap where action 0
answers 7; copying to identity 1, hijacking 0 with 2, then hijacking 0
with the copy restores 0's answer, and the copy answers 7 throughout. -/
theorem hijack_roundtrip_restores_witness :
    ((fun _ => (⟨Dispatch.native 7, 0⟩ : Act)) : ActHeap) 0 =
      ⟨Dispatch.native 7, 0⟩
    ∧ behavior
        (hijack (fun _ _ => true)
          (hijack (fun _ _ => true)
            (copyAct (fun _ => ⟨Dispatch.native 7, 0⟩) 0 1) 0 2) 0 1)
        2 0 = some 7
    ∧ behavior
        (hijack (fun _ _ => true)
          (hijack (fun _ _ => true)
            (copyAct (fun _ => ⟨Dispatch.native 7, 0⟩) 0 1) 0 2) 0 1)
        2 1 = some 7 := by
  have h := hijack_roundtrip_restores (fun _ _ => true)
    (fun _ => ⟨Dispatch.native 7, 0⟩) 0 2 1 7 rfl
    (by decide) (by decide)
  exact ⟨rfl, (h.1 2 (by decide)).1, ((h.2 2 (by decide)).2.2)⟩

end Hijack

namespace Lambda

/-- Result of evaluating the lambda's body block
(`Do_Any_Array_At_Core_Throws` with EVAL_FLAG_MAYBE_STALE): it threw, it
left the output stale (nothing but invisibles ran), or it produced a
value. -/
inductive BodyEval where
  | thrown
  | stale
  | value (v : Nat)
deriving Repr, DecidableEq

/-- Result returned by the dispatcher to the action executor. -/
inductive DispOut where
  | thrown
  | voidOut
  | value (v : Nat)
deriving Repr, DecidableEq

/-- Modelled from the spec: the body of `Make_Or_Reuse_Patch` is not in
the sources (only its call site is); per the specification it creates a
virtual-binding specifier over a context with a given next link.
The virtual-binding specifier built by `Lambda_Dispatcher`: a patch
over the call's frame varlist with the body block's own specifier as the
next link (`Make_Or_Reuse_Patch(CTX(f->varlist), CTX_LEN, ...,
VAL_SPECIFIER(block), REB_WORD)`). -/
structure VirtualSpec where
  frameCtx : Nat
  next : Nat
deriving Repr, DecidableEq

/-- A lambda call's frame: its varlist identity and the specifier stored
on the body block cell. -/
structure LamFrame where
  varlist : Nat
  blockSpec : Nat
deriving Repr, DecidableEq

/-- Embedding of `Lambda_Dispatcher` (%c-lambda.c): build the virtual
specifier over the frame, evaluate the body under it (`evalAt` abstracts
the evaluator), pass a throw through, turn a stale output into void, and
return any produced value unchanged — there is no return-type check
step. -/
def Lambda_Dispatcher (evalAt : VirtualSpec → BodyEval) (f : LamFrame) :
    DispOut :=
  match evalAt ⟨f.varlist, f.blockSpec⟩ with
  | .thrown => .thrown
  | .stale => .voidOut
  | .value v => .value v

/-- One item of a LAMBDA spec block as classified by the loop in
`REBNATIVE(lambda)` after `Derelativize`: a plain word, a meta word, a
quoted item that unquotes to a word or to a non-word, the SET-WORD!
`return:`, another SET-WORD!, or anything else. -/
inductive SpecItem where
  | word (s : Nat)
  | metaWord (s : Nat)
  | quotedWord (s : Nat)
  | quotedNonWord
  | setWordReturn
  | setWordOther (s : Nat)
  | otherItem
deriving Repr, DecidableEq

/-- Parameter class assigned to an optimizable spec item. -/
inductive PClass where
  | normal
  | meta
  | hard
deriving Repr, DecidableEq

/-- Errors raised by the spec-scanning loop of `REBNATIVE(lambda)`. -/
inductive ScanErr where
  | badQuoted
  | returnForbidden
  | invalidSpec
deriving Repr, DecidableEq

/-- Classification of one spec item, mirroring the if-chain in
`REBNATIVE(lambda)`: words, meta words and quoted words yield parameter
classes; a quoted non-word fails; a `return:` SET-WORD! fails with the
"no RETURN facilities" error; anything else fails for a non-block spec
and otherwise makes the lambda non-optimizable (`ok none`). -/
def scanItem (isBlockSpec : Bool) : SpecItem → Except ScanErr (Option PClass)
  | .word _ => .ok (some .normal)
  | .metaWord _ => .ok (some .meta)
  | .quotedWord _ => .ok (some .hard)
  | .quotedNonWord => .error .badQuoted
  | .setWordReturn => .error .returnForbidden
  | .setWordOther _ => if isBlockSpec then .ok none else .error .invalidSpec
  | .otherItem => if isBlockSpec then .ok none else .error .invalidSpec

/-- The spec-scanning loop of `REBNATIVE(lambda)`: processes items left to
right, propagating the first error; the returned flag is `optimizable`. -/
def scanSpec (isBlockSpec : Bool) : List SpecItem → Except ScanErr Bool
  | [] => .ok true
  | i :: rest =>
    match scanItem isBlockSpec i with
    | .error e => .error e
    | .ok none =>
      match scanSpec isBlockSpec rest with
      | .error e => .error e
      | .ok _ => .ok false
    | .ok (some _) => scanSpec isBlockSpec rest

/-- C4: the lambda dispatcher evaluates the body under a virtual-binding
specifier made over the call's frame; a stale output becomes void, a
value is returned with no return-type check applied, a throw propagates;
and the lambda generator rejects a `return:` SET-WORD! anywhere in the
spec (there is no RETURN binding). -/
theorem lambda_dispatcher_semantics (evalAt : VirtualSpec → BodyEval)
    (f : LamFrame) :
    (evalAt ⟨f.varlist, f.blockSpec⟩ = .stale →
      Lambda_Dispatcher evalAt f = .voidOut)
    ∧ (∀ v, evalAt ⟨f.varlist, f.blockSpec⟩ = .value v →
      Lambda_Dispatcher evalAt f = .value v)
    ∧ (evalAt ⟨f.varlist, f.blockSpec⟩ = .thrown →
      Lambda_Dispatcher evalAt f = .thrown)
    ∧ (∀ isBlockSpec pre post,
      (∀ e, scanSpec isBlockSpec pre ≠ .error e) →
      scanSpec isBlockSpec (pre ++ SpecItem.setWordReturn :: post) =
        .error .returnForbidden) := by
  refine ⟨?_, ?_, ?_, ?_⟩
  · intro hst
    unfold Lambda_Dispatcher
    rw [hst]
  · intro v hv
    unfold Lambda_Dispatcher
    rw [hv]
  · intro ht
    unfold Lambda_Dispatcher
    rw [ht]
  · intro isBlockSpec pre post hok
    induction pre with
    | nil =>
      simp [scanSpec, scanItem]
    | cons i rest ih =>
      cases hi : scanItem isBlockSpec i with
      | error e =>
        exact absurd (by rw [scanSpec, hi] : scanSpec isBlockSpec (i :: rest)
          = .error e) (hok e)
      | ok o =>
        have hrest : ∀ e, scanSpec isBlockSpec rest ≠ .error e := by
          intro e he
          cases o with
          | none =>
            exact hok e (by rw [scanSpec, hi, he])
          | some pc =>
            exact hok e (by rw [scanSpec, hi]; exact he)
        have := ih hrest
        cases o with
        | none =>
          rw [List.cons_append, scanSpec, hi, this]
        | some pc =>
          rw [List.cons_append, scanSpec, hi]
          exact this

/-- Witness for C4 at concrete inputs: a body evaluation that comes back
stale yields void, and a one-item spec holding `return:` is rejected. -/
theorem lambda_dispatcher_semantics_witness :
    Lambda_Dispatcher (fun _ => BodyEval.stale) ⟨0, 0⟩ = DispOut.voidOut
    ∧ scanSpec true ([] ++ SpecItem.setWordReturn :: []) =
        .error ScanErr.returnForbidden := by
  have h := lambda_dispatcher_semantics (fun _ => BodyEval.stale) ⟨0, 0⟩
  exact ⟨h.1 rfl, h.2.2.2 true [] [] (by intro e he; cases he)⟩

end Lambda

namespace Tc

/-- REB_ISOTOPE kind number used when an unstable isotope is tested
against a TYPE-WORD!. -/
def REB_ISOTOPE : Nat := 1

/-- Argument value model for `Typecheck_Value`: the null antiform, void,
the none state (`Is_None`), an isotopic word with its symbol, an unstable
isotope, or a plain value of some kind number. -/
inductive Val where
  | nullV
  | voidV
  | noneV
  | isoWord (s : Nat)
  | isoUnstable (k : Nat)
  | plain (k : Nat)
deriving Repr, DecidableEq

/-- The kind compared by the REB_TYPE_WORD case of `Typecheck_Value`:
an unstable isotope reports REB_ISOTOPE, otherwise `VAL_TYPE`. -/
def valTypeForTest : Val → Nat
  | .nullV => 2
  | .voidV => 3
  | .noneV => 4
  | .isoWord _ => 5
  | .isoUnstable _ => REB_ISOTOPE
  | .plain k => k

/-- One element of a type-test block, covering the element kinds of
`Typecheck_Value` (%c-typechecker.c) embedded here: quasi `~void~`,
quasi words, TYPE-WORD!, nested TYPE-BLOCK! and TYPE-GROUP! (plain
BLOCK!/GROUP! elements get these kinds assigned), and the literal tag
sentinels. -/
inductive TestItem where
  | quasiVoid
  | quasiWord (s : Nat)
  | typeWordT (k : Nat)
  | typeBlockT (l : List TestItem)
  | typeGroupT (l : List TestItem)
  | tagOpt
  | tagVoid
  | tagOther

mutual

/-- Outcome of one iteration of the `Typecheck_Value` loop on a single
element: `some true` is `goto test_succeeded`, `some false` is
`goto test_failed`, and `none` is the `continue` taken when a quasi-word
element meets a non-isoword argument (the element neither passes nor
fails).  A nested block recurses with ANY semantics, a nested group with
ALL semantics. -/
def testOne (v : Val) : TestItem → Option Bool
  | .quasiVoid => some (v == .noneV)
  | .quasiWord s =>
    match v with
    | .isoWord s2 => some (s2 == s)
    | _ => none
  | .typeWordT k => some (valTypeForTest v == k)
  | .typeBlockT l => some (tcLoop v false l)
  | .typeGroupT l => some (tcLoop v true l)
  | .tagOpt => some (v == .nullV)
  | .tagVoid => some (v == .voidV)
  | .tagOther => some true

/-- The element loop of `Typecheck_Value` with its `match_all` flag:
in ANY mode (`match_all == false`) the first succeeding element returns
true and the loop falls off the end with false; in ALL mode the first
failing element returns false and the loop falls off the end with
true. -/
def tcLoop (v : Val) (matchAll : Bool) : List TestItem → Bool
  | [] => matchAll
  | i :: rest =>
    match testOne v i with
    | none => tcLoop v matchAll rest
    | some true => if matchAll then tcLoop v matchAll rest else true
    | some false => if matchAll then false else tcLoop v matchAll rest

end

/-- Top-level test-spec forms accepted by `Typecheck_Value`: BLOCK! and
TYPE-BLOCK! run the loop in ANY mode, GROUP! and TYPE-GROUP! in ALL mode,
a PARAMETER! with no array accepts everything and otherwise runs ANY
mode, and a lone TYPE-WORD! runs in ALL mode over itself. -/
inductive TestSpec where
  | blockS (l : List TestItem)
  | groupS (l : List TestItem)
  | paramS (l : Option (List TestItem))
  | typeWordS (k : Nat)

/-- Embedding of the dispatch at the head of `Typecheck_Value` on the
kind of the tests value. -/
def Typecheck_Value (tests : TestSpec) (v : Val) : Bool :=
  match tests with
  | .blockS l => tcLoop v false l
  | .groupS l => tcLoop v true l
  | .paramS none => true
  | .paramS (some l) => tcLoop v false l
  | .typeWordS k => tcLoop v true [TestItem.typeWordT k]

theorem tcLoop_nil (v : Val) (mA : Bool) : tcLoop v mA [] = mA := by
  simp only [tcLoop]

theorem tcLoop_cons_none (v : Val) (mA : Bool) (i : TestItem)
    (rest : List TestItem) (hi : testOne v i = none) :
    tcLoop v mA (i :: rest) = tcLoop v mA rest := by
  simp only [tcLoop, hi]

theorem tcLoop_cons_true (v : Val) (mA : Bool) (i : TestItem)
    (rest : List TestItem) (hi : testOne v i = some true) :
    tcLoop v mA (i :: rest) = if mA then tcLoop v mA rest else true := by
  simp only [tcLoop, hi]

theorem tcLoop_cons_false (v : Val) (mA : Bool) (i : TestItem)
    (rest : List TestItem) (hi : testOne v i = some false) :
    tcLoop v mA (i :: rest) = if mA then false else tcLoop v mA rest := by
  simp only [tcLoop, hi]

theorem testOne_typeBlockT (v : Val) (l : List TestItem) :
    testOne v (.typeBlockT l) = some (tcLoop v false l) := by
  simp only [testOne]

theorem testOne_typeGroupT (v : Val) (l : List TestItem) :
    testOne v (.typeGroupT l) = some (tcLoop v true l) := by
  simp only [testOne]

theorem tcLoop_any_iff (v : Val) (l : List TestItem) :
    tcLoop v false l = true ↔ ∃ i ∈ l, testOne v i = some true := by
  induction l with
  | nil =>
    rw [tcLoop_nil]
    simp
  | cons i rest ih =>
    cases hi : testOne v i with
    | none =>
      rw [tcLoop_cons_none v false i rest hi, ih]
      constructor
      · rintro ⟨j, hj, hjt⟩
        exact ⟨j, List.mem_cons_of_mem i hj, hjt⟩
      · rintro ⟨j, hj, hjt⟩
        cases hj with
        | head => rw [hi] at hjt; cases hjt
        | tail _ hj2 => exact ⟨j, hj2, hjt⟩
    | some b =>
      cases b with
      | true =>
        rw [tcLoop_cons_true v false i rest hi, if_neg (by simp)]
        constructor
        · intro _
          exact ⟨i, List.mem_cons_self i rest, hi⟩
        · intro _
          rfl
      | false =>
        rw [tcLoop_cons_false v false i rest hi, if_neg (by simp), ih]
        constructor
        · rintro ⟨j, hj, hjt⟩
          exact ⟨j, List.mem_cons_of_mem i hj, hjt⟩
        · rintro ⟨j, hj, hjt⟩
          cases hj with
          | head => rw [hi] at hjt; exact absurd hjt (by simp)
          | tail _ hj2 => exact ⟨j, hj2, hjt⟩

theorem tcLoop_all_iff (v : Val) (l : List TestItem) :
    tcLoop v true l = true ↔ ∀ i ∈ l, testOne v i ≠ some false := by
  induction l with
  | nil =>
    rw [tcLoop_nil]
    simp
  | cons i rest ih =>
    cases hi : testOne v i with
    | none =>
      rw [tcLoop_cons_none v true i rest hi, ih]
      constructor
      · intro hall j hj
        cases hj with
        | head => rw [hi]; simp
        | tail _ hj2 => exact hall j hj2
      · intro hall j hj
        exact hall j (List.mem_cons_of_mem i hj)
    | some b =>
      cases b with
      | true =>
        rw [tcLoop_cons_true v true i rest hi, if_pos rfl, ih]
        constructor
        · intro hall j hj
          cases hj with
          | head => rw [hi]; simp
          | tail _ hj2 => exact hall j hj2
        · intro hall j hj
          exact hall j (List.mem_cons_of_mem i hj)
      | false =>
        rw [tcLoop_cons_false v true i rest hi, if_pos rfl]
        constructor
        · intro hfalse
          cases hfalse
        · intro hall
          exact absurd hi (hall i (List.mem_cons_self i rest))

/-- C5: when a type-test element is a type-block, the argument passes it
exactly when at least one contained test matches (ANY semantics, and a
match at the head decides regardless of the remaining tests); when the
element is a type-group, the argument passes exactly when no contained
test fails it (ALL semantics — a quasi-word test that does not apply to
the argument is skipped rather than failed). -/
theorem typecheck_block_any_group_all (v : Val) (l : List TestItem) :
    (testOne v (.typeBlockT l) = some true ↔
      ∃ i ∈ l, testOne v i = some true)
    ∧ (testOne v (.typeGroupT l) = some true ↔
      ∀ i ∈ l, testOne v i ≠ some false)
    ∧ (∀ i rest, testOne v i = some true →
      testOne v (.typeBlockT (i :: rest)) = some true) := by
  refine ⟨?_, ?_, ?_⟩
  · rw [testOne_typeBlockT]
    constructor
    · intro hsome
      exact (tcLoop_any_iff v l).mp (Option.some.inj hsome)
    · intro hex
      rw [(tcLoop_any_iff v l).mpr hex]
  · rw [testOne_typeGroupT]
    constructor
    · intro hsome
      exact (tcLoop_all_iff v l).mp (Option.some.inj hsome)
    · intro hall
      rw [(tcLoop_all_iff v l).mpr hall]
  · intro i rest hi
    rw [testOne_typeBlockT, tcLoop_cons_true v false i rest hi,
      if_neg (by simp)]

/-- Witness for C5 at concrete inputs: a kind-8 argument against a
type-block and a type-group of TYPE-WORD! tests. -/
theorem typecheck_block_any_group_all_witness :
    testOne (Val.plain 8) (TestItem.typeBlockT
      [TestItem.typeWordT 9, TestItem.typeWordT 8]) = some true
    ∧ testOne (Val.plain 8) (TestItem.typeGroupT
      [TestItem.typeWordT 8, TestItem.tagOther]) = some true
    ∧ testOne (Val.plain 8) (TestItem.typeBlockT
      [TestItem.typeWordT 8, TestItem.typeWordT 9]) = some true := by
  have h := typecheck_block_any_group_all (Val.plain 8)
    [TestItem.typeWordT 9, TestItem.typeWordT 8]
  have h2 := typecheck_block_any_group_all (Val.plain 8)
    [TestItem.typeWordT 8, TestItem.tagOther]
  refine ⟨?_, ?_, ?_⟩
  · refine h.1.mpr ⟨TestItem.typeWordT 8, by simp, ?_⟩
    simp [testOne, valTypeForTest]
  · refine h2.2.1.mpr ?_
    intro i hi
    cases hi with
    | head => simp [testOne, valTypeForTest]
    | tail _ hi2 =>
      cases hi2 with
      | head => simp [testOne]
      | tail _ hi3 => cases hi3
  · refine h.2.2 (TestItem.typeWordT 8) [TestItem.typeWordT 9] ?_
    simp [testOne, valTypeForTest]

end Tc

namespace PathEv

/-- Value model for path evaluation: the null state (`IS_NULLED`), an
opaque value, a word value (a derelativized WORD! picker), or a
derelativized GET-WORD! head. -/
inductive V where
  | nullV
  | val (n : Nat)
  | wordV (s : Nat)
  | getWordV (s : Nat)
deriving Repr, DecidableEq

/-- One element of a path, as distinguished by `Do_Path_Throws_Core` and
`Next_Path_Throws` (%c-path.c): an inert value (`ANY_INERT`), a WORD!, a
GET-WORD!, a GROUP!, or some other non-inert value. -/
inductive PathElem where
  | inert (n : Nat)
  | word (s : Nat)
  | getWord (s : Nat)
  | group (g : Nat)
  | other (n : Nat)
deriving Repr, DecidableEq

/-- The three heads dispatched to `Do_Path_Throws_Core`. -/
inductive PathKind where
  | path
  | getPath
  | setPath
deriving Repr, DecidableEq

/-- Errors failed by the embedded portions of the path evaluator. -/
inductive PErr where
  | emptyPath
  | inertHeadGetSet
  | groupNoGroups
  | noValue
  | badPick
deriving Repr, DecidableEq

/-- Outcome of a path evaluation: an error, a throw (a GROUP! in the path
threw), the inert path itself, or the final value. -/
inductive PathOut where
  | err (e : PErr)
  | thrown
  | inertPath (elems : List PathElem)
  | value (v : V)
deriving Repr, DecidableEq

/-- Embedding of `Next_Path_Throws` (%c-path.c) for value-reading
evaluation (`opt_setval == NULL`): at each step the picker is computed —
a GET-WORD! picker is looked up, a GROUP! picker fails under the
DO_FLAG_NO_PATH_GROUPS flag and otherwise evaluates (possibly throwing),
anything else is used as-is — a nulled current value or picker fails with
the no-value error, and the heart dispatcher for the current value
produces the next value or the unhandled bad-pick error.  `lookup`
abstracts `Move_Opt_Var_May_Fail`, `evalGroup` abstracts `Do_At_Throws`
(`none` = threw), `dispatch` abstracts the `Path_Dispatch` table
(`none` = R_UNHANDLED). -/
def nextPath (lookup : Nat → V) (evalGroup : Nat → Option V)
    (dispatch : V → V → Option V) (noGroups : Bool) :
    V → List PathElem → PathOut
  | cur, [] => .value cur
  | cur, e :: rest =>
    if cur = .nullV then .err .noValue
    else
      match
        (match e with
         | .group g =>
           if noGroups then Sum.inl (PathOut.err .groupNoGroups)
           else
             match evalGroup g with
             | none => Sum.inl PathOut.thrown
             | some pv => Sum.inr pv
         | .getWord s => Sum.inr (lookup s)
         | .inert n => Sum.inr (V.val n)
         | .word s => Sum.inr (V.wordV s)
         | .other n => Sum.inr (V.val n)
         : Sum PathOut V)
      with
      | Sum.inl out => out
      | Sum.inr pv =>
        if pv = .nullV then .err .noValue
        else
          match dispatch cur pv with
          | none => .err .badPick
          | some v => nextPath lookup evalGroup dispatch noGroups v rest

/-- Embedding of `Do_Path_Throws_Core` (%c-path.c) for value-reading
evaluation: an inert head makes a plain PATH! yield itself and fails for
GET-PATH!/SET-PATH!; an exhausted feed fails as an empty path; a WORD!
head is looked up, a GROUP! head is rejected under the no-groups flag and
otherwise evaluated (throws propagate), other heads are used
derelativized; a nulled head value fails, a single-element path yields
the head value, and longer paths continue through `Next_Path_Throws`. -/
def Do_Path_Throws_Core (lookup : Nat → V) (evalGroup : Nat → Option V)
    (dispatch : V → V → Option V) (kind : PathKind) (noGroups : Bool)
    (elems : List PathElem) : PathOut :=
  match elems with
  | [] => .err .emptyPath
  | e :: rest =>
    match e with
    | .inert n =>
      if kind ≠ .path then .err .inertHeadGetSet
      else .inertPath (PathElem.inert n :: rest)
    | .word s =>
      let v := lookup s
      if v = .nullV then .err .noValue
      else nextPath lookup evalGroup dispatch noGroups v rest
    | .group g =>
      if noGroups then .err .groupNoGroups
      else
        match evalGroup g with
        | none => .thrown
        | some v =>
          if v = .nullV then .err .noValue
          else nextPath lookup evalGroup dispatch noGroups v rest
    | .getWord s =>
      nextPath lookup evalGroup dispatch noGroups (V.getWordV s) rest
    | .other n =>
      nextPath lookup evalGroup dispatch noGroups (V.val n) rest

/-- C6: a plain PATH! whose first element is inert is itself inert and
yields itself; an empty path is an error; a GROUP! in a path — at the
head or at a later position — is an error when the no-groups flag is set
(as under GET or SET), and with the flag clear the group is evaluated,
its throw propagating and its value feeding the rest of the path. -/
theorem path_inert_empty_groups (lookup : Nat → V)
    (evalGroup : Nat → Option V) (dispatch : V → V → Option V) :
    (∀ n rest noGroups,
      Do_Path_Throws_Core lookup evalGroup dispatch .path noGroups
        (PathElem.inert n :: rest) = .inertPath (PathElem.inert n :: rest))
    ∧ (∀ kind noGroups,
      Do_Path_Throws_Core lookup evalGroup dispatch kind noGroups [] =
        .err .emptyPath)
    ∧ (∀ kind g rest,
      Do_Path_Throws_Core lookup evalGroup dispatch kind true
        (PathElem.group g :: rest) = .err .groupNoGroups)
    ∧ (∀ cur g rest, cur ≠ V.nullV →
      nextPath lookup evalGroup dispatch true cur
        (PathElem.group g :: rest) = .err .groupNoGroups)
    ∧ (∀ g rest, evalGroup g = none →
      Do_Path_Throws_Core lookup evalGroup dispatch .path false
        (PathElem.group g :: rest) = .thrown)
    ∧ (∀ g rest v, evalGroup g = some v → v ≠ V.nullV →
      Do_Path_Throws_Core lookup evalGroup dispatch .path false
        (PathElem.group g :: rest) =
        nextPath lookup evalGroup dispatch false v rest) := by
  refine ⟨?_, ?_, ?_, ?_, ?_, ?_⟩
  · intro n rest noGroups
    simp [Do_Path_Throws_Core]
  · intro kind noGroups
    simp [Do_Path_Throws_Core]
  · intro kind g rest
    cases kind <;> simp [Do_Path_Throws_Core]
  · intro cur g rest hcur
    rw [nextPath]
    rw [if_neg hcur]
    rfl
  · intro g rest hg
    simp [Do_Path_Throws_Core, hg]
  · intro g rest v hg hv
    simp [Do_Path_Throws_Core, hg, hv]

/-- Witness for C6 at concrete inputs: an inert-headed plain path yields
itself, a group under the no-groups flag errors both at the head and in
picker position, and with the flag clear the group's value flows on. -/
theorem path_inert_empty_groups_witness :
    Do_Path_Throws_Core (fun _ => V.val 0) (fun _ => some (V.val 1))
      (fun _ _ => some (V.val 2)) .path false [PathElem.inert 4] =
      .inertPath [PathElem.inert 4]
    ∧ Do_Path_Throws_Core (fun _ => V.val 0) (fun _ => some (V.val 1))
      (fun _ _ => some (V.val 2)) .getPath true [] = .err .emptyPath
    ∧ Do_Path_Throws_Core (fun _ => V.val 0) (fun _ => some (V.val 1))
      (fun _ _ => some (V.val 2)) .getPath true [PathElem.group 3] =
      .err .groupNoGroups
    ∧ nextPath (fun _ => V.val 0) (fun _ => some (V.val 1))
      (fun _ _ => some (V.val 2)) true (V.val 9) [PathElem.group 3] =
      .err .groupNoGroups
    ∧ Do_Path_Throws_Core (fun _ => V.val 0) (fun _ => some (V.val 1))
      (fun _ _ => some (V.val 2)) .path false [PathElem.group 3] =
      nextPath (fun _ => V.val 0) (fun _ => some (V.val 1))
        (fun _ _ => some (V.val 2)) false (V.val 1) [] := by
  have h := path_inert_empty_groups (fun _ => V.val 0)
    (fun _ => some (V.val 1)) (fun _ _ => some (V.val 2))
  refine ⟨h.1 4 [] false, h.2.1 .getPath true, h.2.2.1 .getPath 3 [],
    h.2.2.2.1 (V.val 9) 3 [] (by simp), ?_⟩
  exact h.2.2.2.2.2 3 [] (V.val 1) rfl (by simp)

end PathEv

namespace FilePort

/-- State of an open file port as kept in the FILEREQ record: the file's
bytes (standing for the OS file addressed by the descriptor, whose size
is what `Get_File_Size_Cacheable` reports) and the port's current
offset. -/
structure FileSt where
  bytes : List Nat
  offset : Nat
deriving Repr, DecidableEq

/-- Outcome of the READ verb of `File_Actor` (%p-file.c): the
`fail (ARG(seek))` for a non-positive /SEEK address, the out-of-range
error for an offset beyond the file size, the error for a negative /PART,
the null returned at end of file, or a BINARY! of the bytes read. -/
inductive ReadOut where
  | seekFail
  | outOfRange
  | negPart
  | nullAtEof
  | binary (data : List Nat)
deriving Repr, DecidableEq

/-- Embedding of `Read_File` (%file-posix.c): `read()` on a regular file
returns `min(length, size - offset)` bytes from the current offset and
the port offset advances by the bytes read; the buffer is repossessed as
a BINARY!. -/
def Read_File (st : FileSt) (len : Nat) : ReadOut × FileSt :=
  let data := (st.bytes.drop st.offset).take len
  (.binary data, ⟨st.bytes, st.offset + data.length⟩)

/-- The part of the READ verb of `File_Actor` after the size query:
offset beyond the size is out of range, offset at the size returns null,
otherwise the default length is everything to the tail, bounded by a
non-negative /PART limit buried in `part`. -/
def fileReadCore (st : FileSt) (part : Option Int) : ReadOut × FileSt :=
  let size := st.bytes.length
  if st.offset > size then (.outOfRange, st)
  else if size = st.offset then (.nullAtEof, st)
  else
    let len : Nat := size - st.offset
    match part with
    | some p =>
      if p < 0 then (.negPart, st)
      else Read_File st (if p < (len : Int) then p.toNat else len)
    | none => Read_File st len

/-- Embedding of the READ verb of `File_Actor` (%p-file.c): the /SEEK
refinement is checked first — the code fails for any address `<= 0`
(despite the comment above it declaring seek addresses 0-based) and
otherwise replaces the port offset — then the size-relative logic of
`fileReadCore` runs. -/
def File_Actor_Read (st : FileSt) (seek : Option Int) (part : Option Int) :
    ReadOut × FileSt :=
  match seek with
  | some s =>
    if s ≤ 0 then (.seekFail, st)
    else fileReadCore ⟨st.bytes, s.toNat⟩ part
  | none => fileReadCore st part

/-- C7: the claim (and the code's own comment) says seek addresses are
0-based, so READ with /SEEK 0 on an open non-empty file should position
at the start and succeed; the code instead takes the `seek <= 0` branch
and fails.  Evaluation of the embedded actor at the failing input: a
three-byte file read with /SEEK 0 fails rather than reading from the
start. -/
theorem read_seek_zero_fails :
    File_Actor_Read ⟨[10, 20, 30], 0⟩ (some 0) none =
      (ReadOut.seekFail, ⟨[10, 20, 30], 0⟩)
    ∧ File_Actor_Read ⟨[10, 20, 30], 0⟩ (some 1) none ≠
      (ReadOut.seekFail, ⟨[10, 20, 30], 0⟩) := by
  constructor
  · rfl
  · intro h
    simp [File_Actor_Read, fileReadCore, Read_File] at h

/-- C8: READ of an open file port whose offset equals the file size
returns null (never an empty binary) whatever the /PART refinement says;
for any offset strictly below the size, plain READ and READ with a
non-negative /PART return a BINARY! value. -/
theorem read_eof_null_below_binary (st : FileSt) (part : Option Int) :
    (st.offset = st.bytes.length →
      (File_Actor_Read st none part).1 = ReadOut.nullAtEof)
    ∧ (st.offset < st.bytes.length →
      (part = none ∨ ∃ p, part = some p ∧ 0 ≤ p) →
      ∃ data, (File_Actor_Read st none part).1 = ReadOut.binary data) := by
  constructor
  · intro heof
    unfold File_Actor_Read fileReadCore
    rw [if_neg (by omega), if_pos heof.symm]
  · intro hlt hpart
    unfold File_Actor_Read fileReadCore
    rw [if_neg (by omega), if_neg (by omega)]
    cases hpart with
    | inl hnone =>
      subst hnone
      exact ⟨_, rfl⟩
    | inr hsome =>
      obtain ⟨p, rfl, hp⟩ := hsome
      simp only []
      rw [if_neg (by omega)]
      exact ⟨_, rfl⟩

/-- Witness for C8 at concrete inputs: a two-byte file at offset 2 reads
null; the same file at offset 1 reads a binary. -/
theorem read_eof_null_below_binary_witness :
    (File_Actor_Read ⟨[7, 8], 2⟩ none none).1 = ReadOut.nullAtEof
    ∧ (File_Actor_Read ⟨[7, 8], 1⟩ none none).1 = ReadOut.binary [8] := by
  have h1 := (read_eof_null_below_binary ⟨[7, 8], 2⟩ none).1 rfl
  have h2 := (read_eof_null_below_binary ⟨[7, 8], 1⟩ none).2
    (by decide) (Or.inl rfl)
  exact ⟨h1, by rfl⟩

end FilePort

namespace Boot

/-- Model of the Rebol expression `head change copy #{00} n`: CHANGE on
the one-byte binary `#{00}` with an integer replaces the first byte with
that integer. -/
def changeByte (bin : List Nat) (n : Nat) : List Nat :=
  match bin with
  | [] => [n]
  | _ :: rest => n :: rest

/-- Embedding of the `symbol-strings` construction of %make-boot.r: for
each word of `syms-words` (which is appended to in SYM-ID order as
symbols are registered), keep one byte made by changing `#{00}` to the
spelling's length, then keep the spelling; JOIN concatenates the
collected binaries.  Spellings are modelled as their UTF-8 byte lists
(their length standing for `length of spelling`). -/
def symbol_strings (syms : List (List Nat)) : List Nat :=
  (syms.map (fun spelling => changeByte [0] spelling.length ++ spelling)).flatten

/-- Modelled from the spec: the claimed symbol-table payload as
"null-separated UTF-8 entries in SYM-ID order" — the spellings with a
zero byte separating consecutive entries. -/
def symbolStringsNullSeparated (syms : List (List Nat)) : List Nat :=
  (List.intersperse [0] syms).flatten

/-- The amended format: each entry is one byte holding the spelling's
length followed by the spelling's UTF-8 bytes, entries concatenated in
SYM-ID order. -/
def symbolStringsLengthPrefixed (syms : List (List Nat)) : List Nat :=
  (syms.map (fun s => s.length :: s)).flatten

/-- Counterexample to C9 as stated: for a symbol table holding the single
spelling "a" (byte 97), the emitted payload is the length-prefixed
`[1, 97]`, not the null-separated `[97]`. -/
theorem symbol_strings_not_null_separated :
    symbol_strings [[97]] = [1, 97]
    ∧ symbolStringsNullSeparated [[97]] = [97]
    ∧ symbol_strings [[97]] ≠ symbolStringsNullSeparated [[97]] := by
  refine ⟨rfl, rfl, ?_⟩
  intro h
  simp [symbol_strings, symbolStringsNullSeparated, changeByte,
    List.intersperse] at h

/-- C9 (amended): the symbol table emitted into the boot image (before
gzip compression) is the concatenation, in SYM-ID order, of
length-prefixed entries — one byte holding the spelling's length followed
by the spelling's UTF-8 bytes. -/
theorem symbol_strings_length_prefixed (syms : List (List Nat)) :
    symbol_strings syms = symbolStringsLengthPrefixed syms := by
  unfold symbol_strings symbolStringsLengthPrefixed
  induction syms with
  | nil => rfl
  | cons s rest ih =>
    simp only [List.map_cons, List.flatten_cons] at ih ⊢
    rw [ih]
    rfl

end Boot

namespace FileWrite

/-- The carriage-return byte checked by `Write_File`. -/
def CR : Nat := 13

/-- A value given to the WRITE verb, after the dispatcher's preparation:
TEXT! and ISSUE! carry the UTF-8 bytes that
`Cell_Utf8_Len_Size_At_Limit` extracts under the /PART limit, BINARY!
carries the bytes at the value's index, and `other` stands for any value
of another type. -/
inductive WVal where
  | text (utf8 : List Nat)
  | issue (utf8 : List Nat)
  | binary (bytes : List Nat)
  | other
deriving Repr, DecidableEq

/-- Errors raised by `Write_File`. -/
inductive WErr where
  | illegalCr
  | badType
deriving Repr, DecidableEq

/-- Embedding of `Write_File` (%file-posix.c): TEXT! and ISSUE! data is
scanned for a carriage-return byte before anything is written —
`fail (Error_Illegal_Cr(...))` leaves the file untouched — and otherwise
its UTF-8 bytes are written; for any other type the value must be a
BINARY! or an error value is returned, and a BINARY! writes `limit`
bytes from the value's position with no CR scan.  The result is the
file's bytes after the call. -/
def Write_File (file : List Nat) (value : WVal) (limit : Nat) :
    Except WErr (List Nat) :=
  match value with
  | .text utf8 | .issue utf8 =>
    if utf8.contains CR then .error .illegalCr
    else .ok (file ++ utf8)
  | .binary bytes => .ok (file ++ bytes.take limit)
  | .other => .error .badType

/-- C10: writing TEXT! or ISSUE! data whose UTF-8 bytes contain a
carriage return fails with the illegal-CR error and writes nothing (the
error result carries no new file state); CR-free text is written; BINARY!
data is written with no CR check (even when it contains CR bytes); any
other type is rejected with an error. -/
theorem write_file_cr_policy (file utf8 bytes : List Nat) (limit : Nat) :
    (utf8.contains CR = true →
      Write_File file (.text utf8) limit = .error .illegalCr
      ∧ Write_File file (.issue utf8) limit = .error .illegalCr)
    ∧ (utf8.contains CR = false →
      Write_File file (.text utf8) limit = .ok (file ++ utf8)
      ∧ Write_File file (.issue utf8) limit = .ok (file ++ utf8))
    ∧ Write_File file (.binary bytes) limit = .ok (file ++ bytes.take limit)
    ∧ Write_File file .other limit = .error .badType := by
  refine ⟨?_, ?_, rfl, rfl⟩
  · intro hcr
    have hmem : CR ∈ utf8 := by simpa using hcr
    constructor <;> simp [Write_File, hmem]
  · intro hcr
    have hmem : CR ∉ utf8 := by simpa using hcr
    constructor <;> simp [Write_File, hmem]

/-- Witness for C10 at concrete inputs: text holding a CR byte is
rejected, CR-free text is appended, and a binary holding a CR byte is
written unchecked. -/
theorem write_file_cr_policy_witness :
    Write_File [1] (WVal.text [65, 13, 66]) 3 = .error WErr.illegalCr
    ∧ Write_File [1] (WVal.text [65, 66]) 2 = .ok [1, 65, 66]
    ∧ Write_File [1] (WVal.binary [13, 14]) 2 = .ok [1, 13, 14] := by
  have h := write_file_cr_policy [1] [65, 13, 66] [13, 14] 3
  have h2 := write_file_cr_policy [1] [65, 66] [13, 14] 2
  exact ⟨(h.1 (by decide)).1, (h2.2.1 (by decide)).1, by rfl⟩

end FileWrite
